import Mathlib

/-!
Verification of the topay-wallet core (`src/wallet.js`) against its
natural-language specification.

Shallow embedding conventions:
* JavaScript satoshi amounts are modelled as rationals (`ℚ`); arguments that
  the code validates with `Number.isInteger` keep the full rational type so
  that the validation itself is expressible.
* The cryptographic key-derivation adapter (`_getPublicKey` /
  `_getPrivateKey` / `_getAddress` bodies beyond their argument checks) and
  transaction serialization are external library calls; they are abstracted
  as parameter functions `deriv : Nat → String` (index to address),
  `privKey : Nat → Nat` (index to opaque key material) and
  `serHexLen : SignedTx → Nat` (length of the serialized hex string).
* The REST back-end is a `Backend` record of pure query functions; the
  network operations a wallet call issues are collected in a `List NetOp`
  trace so that "issues no query" claims are statable.
* Thrown errors become `Except Err`; `Err` mirrors the throw sites of the
  code (`checkArgument` failures and the `Insufficient funds` TopayError)
  plus the `insufficientHistory` kind that appears in the specification's
  error taxonomy (§7) — the code itself never constructs that kind.
* The fee rate `1.1` is a JavaScript double; it is modelled by the exact
  rational value of its binary64 representation, `4953959590107546 / 2^52`,
  and the one inexact double operation of the fee computation — the product
  `transactionBytes * this._satoshisPerByte` — by `roundDouble`, rounding
  the exact product to the nearest binary64 value with ties to even.
-/

namespace Topay

/-- Unspent output as returned by the REST back-end
(`getUtxoSet` response element shape). -/
structure Utxo where
  txid : String
  vout : Nat
  address : String
  scriptPubKey : String
  satoshis : ℚ
deriving DecidableEq, Repr

/-- Normalized transaction input shape produced by `_getAvailableInputs`. -/
structure Input where
  txId : String
  outputIndex : Nat
  address : String
  script : String
  satoshis : ℚ
deriving DecidableEq, Repr

/-- The field-by-field normalization `_getAvailableInputs` applies to each
utxo of the REST response. -/
def normalizeUtxo (u : Utxo) : Input :=
  { txId := u.txid
    outputIndex := u.vout
    address := u.address
    script := u.scriptPubKey
    satoshis := u.satoshis }

/-- A fully signed transaction as assembled by `_buildTransaction`:
`new Transaction().from(inputs)`, a list of `.to(address, satoshis)`
outputs, and `.sign(privateKey)` recording the (opaque) signing key. -/
structure SignedTx where
  inputs : List Input
  outputs : List (String × ℚ)
  signKey : Nat
deriving DecidableEq, Repr

/-- Error kinds of the wallet core.  `invalidArgument name` models a
`checkArgument(..., name)` failure from the `conditional` package;
`insufficientFunds` models `new TopayError('Cannot create transaction',
'Insufficient funds.')`.  `insufficientHistory` and `communicationError`
are kinds named by the specification's taxonomy (§7); the wallet source
under verification never constructs `insufficientHistory`. -/
inductive Err where
  | invalidArgument (arg : String)
  | insufficientFunds
  | insufficientHistory
  | communicationError
deriving DecidableEq, Repr

/-- Network operations observable at the REST-client boundary. -/
inductive NetOp where
  | addrHistory (a : String)
  | balanceQuery (a : String)
  | utxoQuery (a : String)
  | broadcastTx
deriving DecidableEq, Repr

/-- The REST back-end as seen through `TopayRestClient`: per-address
transaction-history count (`getAddress(...).transactions.length`), balance,
utxo set, and the id the network answers to a broadcast. -/
structure Backend where
  history : String → Nat
  balanceSat : String → ℚ
  utxos : String → List Utxo
  broadcastResult : SignedTx → String

/-- `this._maxWalletIndex = 1000` (constructor). -/
def maxWalletIndex : Nat := 1000

/-- `this._walletIndex = 0` (constructor). -/
def initialWalletIndex : Nat := 0

/-- `this._satoshisPerByte = 1.1` (constructor): the IEEE-754 binary64
value the literal `1.1` stores, which is exactly `4953959590107546 / 2^52`
= 1.100000000000000088817841970012523233890533447265625 — not the rational
`11/10`, which is not representable in binary64. -/
def satoshisPerByte : ℚ := 4953959590107546 / 2 ^ 52

/-- Round a real (rational) significand to the nearest integer, ties to
even — the rounding step of IEEE-754 round-to-nearest. -/
def roundSig (m : ℚ) : ℤ :=
  if m - ⌊m⌋ < 1 / 2 then ⌊m⌋
  else if 1 / 2 < m - ⌊m⌋ then ⌊m⌋ + 1
  else if 2 ∣ ⌊m⌋ then ⌊m⌋
  else ⌊m⌋ + 1

/-- Round a positive rational to the nearest IEEE-754 binary64 value (ties
to even), for arguments in the normal finite range: the significand
`q / 2 ^ (Int.log 2 q - 52)` lies in `[2^52, 2^53)` and is rounded to an
integer.  This models the single double rounding the fee computation
performs, in `transactionBytes * this._satoshisPerByte`; the halving of the
hex length and `Math.ceil` below `2^53` are exact in binary64. -/
def roundDouble (q : ℚ) : ℚ :=
  if 0 < q then
    (roundSig (q / 2 ^ (Int.log 2 q - 52)) : ℚ) * 2 ^ (Int.log 2 q - 52)
  else 0

/-- JavaScript `Number.isInteger` on the rational model of a JS number. -/
def numberIsInteger (q : ℚ) : Bool := q.den == 1

/-- `_getPrivateKey(index)`: `checkArgument(Number.isInteger(index) &&
index >= 0 && index <= this._maxWalletIndex, 'index')`, then the external
derivation (abstracted by `privKey`).  The index reaches this function as
an integer in every call site, so `Number.isInteger` is reflected as true. -/
def getPrivateKey (privKey : Nat → Nat) (index : Int) : Except Err Nat :=
  if 0 ≤ index ∧ index ≤ (maxWalletIndex : Int) then
    .ok (privKey index.toNat)
  else
    .error (.invalidArgument "index")

/-- `_getAddress(index)` = `_getPublicKey(index).toAddress().toString()`;
`_getPublicKey` performs the same `checkArgument` bound check before the
external derivation (abstracted by `deriv`). -/
def getAddress (deriv : Nat → String) (index : Int) : Except Err String :=
  if 0 ≤ index ∧ index ≤ (maxWalletIndex : Int) then
    .ok (deriv index.toNat)
  else
    .error (.invalidArgument "index")

/-- `inputs.reduce((total, input) => total + input.satoshis, 0)`. -/
def inputsBalance (inputs : List Input) : ℚ :=
  inputs.foldl (fun total input => total + input.satoshis) 0

/-- `_buildTransaction(inputs, recipient, amount, fee)`.  Returns the
result together with the wallet index, unchanged: the method reads
`this._walletIndex` but never assigns it. -/
def buildTransaction (deriv : Nat → String) (privKey : Nat → Nat)
    (inputs : List Input) (recipient : String) (amount fee : ℚ)
    (wi : Nat) : Except Err SignedTx × Nat :=
  let balance := inputsBalance inputs
  if balance < amount + fee then
    (.error .insufficientFunds, wi)
  else
    let change := balance - amount - fee
    match getAddress deriv (wi : Int), getPrivateKey privKey ((wi : Int) - 1) with
    | .ok changeAddress, .ok privateKey =>
        let outputs :=
          if recipient ≠ changeAddress then
            (recipient, amount) ::
              (if change > 0 then [(changeAddress, change)] else [])
          else
            [(recipient, amount + change)]
        (.ok { inputs := inputs, outputs := outputs, signKey := privateKey }, wi)
    | .error e, _ => (.error e, wi)
    | .ok _, .error e => (.error e, wi)

/-- `_calculateFee(inputs, recipient, amount)`: build with fee `0`,
take `transaction.toString().length / 2` bytes, multiply by the
satoshis-per-byte rate in binary64 arithmetic (one rounding, modelled by
`roundDouble`) and apply `Math.ceil`. -/
def calculateFee (serHexLen : SignedTx → Nat) (deriv : Nat → String)
    (privKey : Nat → Nat) (inputs : List Input) (recipient : String)
    (amount : ℚ) (wi : Nat) : Except Err ℚ × Nat :=
  match buildTransaction deriv privKey inputs recipient amount 0 wi with
  | (.error e, wi') => (.error e, wi')
  | (.ok transaction, wi') =>
      let transactionBytes : ℚ := (serHexLen transaction : ℚ) / 2
      (.ok ((⌈roundDouble (transactionBytes * satoshisPerByte)⌉ : ℤ) : ℚ), wi')

/-- One-step-per-fuel unfolding of the `while` loop of
`_updateWalletIndex`; the loop's variant `maxWalletIndex - walletIndex`
bounds its iteration count, so running with that much fuel is exact. -/
def scanFuel (B : Backend) (deriv : Nat → String) : Nat → Nat → Nat
  | 0, wi => wi
  | fuel + 1, wi =>
    if wi < maxWalletIndex then
      if B.history (deriv wi) = 0 then wi
      else scanFuel B deriv fuel (wi + 1)
    else wi

/-- `_updateWalletIndex()`: advance the wallet index while it is below
`maxWalletIndex` and the address at the index has non-empty history. -/
def updateWalletIndex (B : Backend) (deriv : Nat → String) (wi : Nat) : Nat :=
  scanFuel B deriv (maxWalletIndex - wi) wi

/-- Trace of history queries issued by one `scanFuel` run: one
`getAddress` REST call per inspected index. -/
def scanOpsFuel (B : Backend) (deriv : Nat → String) : Nat → Nat → List NetOp
  | 0, _ => []
  | fuel + 1, wi =>
    if wi < maxWalletIndex then
      if B.history (deriv wi) = 0 then [.addrHistory (deriv wi)]
      else .addrHistory (deriv wi) :: scanOpsFuel B deriv fuel (wi + 1)
    else []

/-- Trace of history queries issued by `_updateWalletIndex()`. -/
def scanOps (B : Backend) (deriv : Nat → String) (wi : Nat) : List NetOp :=
  scanOpsFuel B deriv (maxWalletIndex - wi) wi

/-- `_getAvailableInputs()`: derive the address at `walletIndex - 1`
(the bound check happens before any network call), query its utxo set and
normalize each element. -/
def getAvailableInputs (B : Backend) (deriv : Nat → String) (wi : Nat) :
    Except Err (List Input) × List NetOp :=
  match getAddress deriv ((wi : Int) - 1) with
  | .error e => (.error e, [])
  | .ok address =>
      (.ok ((B.utxos address).map normalizeUtxo), [.utxoQuery address])

/-- `initialize()` = `await this._updateWalletIndex()`. -/
def initWallet (B : Backend) (deriv : Nat → String) (st : Nat) : Nat :=
  updateWalletIndex B deriv st

/-- `getBalance()`: re-scan; at index 0 return 0 with no balance query;
otherwise query the balance of the address at `walletIndex - 1`.
Result, new wallet index, and trace of network operations. -/
def getBalance (B : Backend) (deriv : Nat → String) (st : Nat) :
    Except Err ℚ × Nat × List NetOp :=
  let wi := updateWalletIndex B deriv st
  let t := scanOps B deriv st
  if wi = 0 then
    (.ok 0, wi, t)
  else
    match getAddress deriv ((wi : Int) - 1) with
    | .error e => (.error e, wi, t)
    | .ok address => (.ok (B.balanceSat address), wi, t ++ [.balanceQuery address])

/-- `getReceiveAddress()`: re-scan, then derive the address at the current
wallet index. -/
def getReceiveAddress (B : Backend) (deriv : Nat → String) (st : Nat) :
    Except Err String × Nat :=
  let wi := updateWalletIndex B deriv st
  (getAddress deriv (wi : Int), wi)

/-- `send(recipient, amount, fee)`: three `checkArgument` validations
(recipient well-formed, `Number.isInteger(amount)`, fee undefined or
`Number.isInteger(fee)`), then scan, collect inputs, compute the fee when
omitted, build, and broadcast.  `isValid` abstracts
`Address.isValid(recipient, 'livenet')`. -/
def send (B : Backend) (deriv : Nat → String) (privKey : Nat → Nat)
    (serHexLen : SignedTx → Nat) (isValid : String → Bool)
    (recipient : String) (amount : ℚ) (feeArg : Option ℚ) (st : Nat) :
    Except Err String × Nat × List NetOp :=
  if ¬ isValid recipient then
    (.error (.invalidArgument "recipient"), st, [])
  else if ¬ numberIsInteger amount then
    (.error (.invalidArgument "amount"), st, [])
  else if ¬ (feeArg.all fun f => numberIsInteger f) then
    (.error (.invalidArgument "fee"), st, [])
  else
    let wi := updateWalletIndex B deriv st
    let t := scanOps B deriv st
    match getAvailableInputs B deriv wi with
    | (.error e, t2) => (.error e, wi, t ++ t2)
    | (.ok inputs, t2) =>
        let feeE : Except Err ℚ :=
          match feeArg with
          | some f => .ok f
          | none =>
              (calculateFee serHexLen deriv privKey inputs recipient amount wi).1
        match feeE with
        | .error e => (.error e, wi, t ++ t2)
        | .ok fee =>
            match buildTransaction deriv privKey inputs recipient amount fee wi with
            | (.error e, _) => (.error e, wi, t ++ t2)
            | (.ok transaction, _) =>
                (.ok (B.broadcastResult transaction), wi, t ++ t2 ++ [.broadcastTx])

/-- `widthraw(recipient)` (source spelling): validate the recipient, scan,
collect inputs, estimate the fee for sending the whole balance, and build
a transaction for `balance - fee` with that fee. -/
def widthraw (B : Backend) (deriv : Nat → String) (privKey : Nat → Nat)
    (serHexLen : SignedTx → Nat) (isValid : String → Bool)
    (recipient : String) (st : Nat) :
    Except Err String × Nat × List NetOp :=
  if ¬ isValid recipient then
    (.error (.invalidArgument "recipient"), st, [])
  else
    let wi := updateWalletIndex B deriv st
    let t := scanOps B deriv st
    match getAvailableInputs B deriv wi with
    | (.error e, t2) => (.error e, wi, t ++ t2)
    | (.ok inputs, t2) =>
        let balance := inputsBalance inputs
        match (calculateFee serHexLen deriv privKey inputs recipient balance wi).1 with
        | .error e => (.error e, wi, t ++ t2)
        | .ok fee =>
            match buildTransaction deriv privKey inputs recipient (balance - fee) fee wi with
            | (.error e, _) => (.error e, wi, t ++ t2)
            | (.ok transaction, _) =>
                (.ok (B.broadcastResult transaction), wi, t ++ t2 ++ [.broadcastTx])

/-- Sum of the satoshi values of a transaction's outputs. -/
def outputsSum (tx : SignedTx) : ℚ :=
  (tx.outputs.map Prod.snd).sum

deriving instance DecidableEq for Except

/-- Concrete address-derivation function for witness evaluation. -/
def specDeriv : Nat → String := fun i =>
  if i = 0 then "addrA" else if i = 1 then "addrB" else "addrC"

/-- Concrete opaque key material for witness evaluation. -/
def specPrivKey : Nat → Nat := fun i => i + 100

/-- Concrete utxo (1000 satoshis) used in witnesses. -/
def specUtxo1 : Utxo :=
  { txid := "tx0626", vout := 2, address := "addrA", scriptPubKey := "scriptA"
    satoshis := 1000 }

/-- Concrete utxo (2000 satoshis) used in witnesses. -/
def specUtxo2 : Utxo :=
  { txid := "tx1cc0", vout := 5, address := "addrA", scriptPubKey := "scriptA"
    satoshis := 2000 }

/-- Concrete backend: address 0 used (42 transactions), address 1 fresh, two
utxos worth 3000 satoshis on address 0. -/
def specBackend : Backend :=
  { history := fun a => if a = "addrA" then 42 else 0
    balanceSat := fun _ => 3000
    utxos := fun a => if a = "addrA" then [specUtxo1, specUtxo2] else []
    broadcastResult := fun _ => "txid0" }

/-- Normalized inputs of the concrete backend. -/
def specInputs : List Input := [normalizeUtxo specUtxo1, normalizeUtxo specUtxo2]

/-- Concrete serialized-hex-length function (226 hex chars = 113 bytes). -/
def specSer : SignedTx → Nat := fun _ => 226

/-- Concrete serialized-hex-length function (100 hex chars = 50 bytes), the
byte count at which the binary64 fee first exceeds the exact-rational one. -/
def serHex100 : SignedTx → Nat := fun _ => 100

/-- Concrete address validity oracle accepting every string. -/
def specValid : String → Bool := fun _ => true

/-- Concrete address validity oracle rejecting every string. -/
def specInvalid : String → Bool := fun _ => false

theorem scanFuel_le_self (B : Backend) (deriv : Nat → String) :
    ∀ fuel wi, wi ≤ scanFuel B deriv fuel wi := by
  intro fuel
  induction fuel with
  | zero => intro wi; simp [scanFuel]
  | succ n ih =>
      intro wi
      simp only [scanFuel]
      split
      · split
        · exact Nat.le_refl wi
        · exact Nat.le_trans (Nat.le_succ wi) (ih (wi + 1))
      · exact Nat.le_refl wi

theorem scanFuel_le_max (B : Backend) (deriv : Nat → String) :
    ∀ fuel wi, wi ≤ maxWalletIndex → scanFuel B deriv fuel wi ≤ maxWalletIndex := by
  intro fuel
  induction fuel with
  | zero => intro wi h; simpa [scanFuel] using h
  | succ n ih =>
      intro wi h
      simp only [scanFuel]
      split
      · split
        · exact h
        · exact ih (wi + 1) (by omega)
      · exact h

theorem scanFuel_not_zero (B : Backend) (deriv : Nat → String) :
    ∀ fuel wi, maxWalletIndex ≤ fuel + wi →
      ∀ j, wi ≤ j → j < scanFuel B deriv fuel wi → B.history (deriv j) ≠ 0 := by
  intro fuel
  induction fuel with
  | zero =>
      intro wi h j hj1 hj2
      simp only [scanFuel] at hj2
      omega
  | succ n ih =>
      intro wi h j hj1 hj2
      simp only [scanFuel] at hj2
      by_cases hlt : wi < maxWalletIndex
      · rw [if_pos hlt] at hj2
        by_cases h0 : B.history (deriv wi) = 0
        · rw [if_pos h0] at hj2; omega
        · rw [if_neg h0] at hj2
          rcases Nat.eq_or_lt_of_le hj1 with rfl | hj1'
          · exact h0
          · exact ih (wi + 1) (by omega) j hj1' hj2
      · rw [if_neg hlt] at hj2; omega

theorem scanFuel_stops (B : Backend) (deriv : Nat → String) :
    ∀ fuel wi, maxWalletIndex ≤ fuel + wi → wi ≤ maxWalletIndex →
      scanFuel B deriv fuel wi = maxWalletIndex ∨
        B.history (deriv (scanFuel B deriv fuel wi)) = 0 := by
  intro fuel
  induction fuel with
  | zero =>
      intro wi h hle
      simp only [scanFuel]
      left; omega
  | succ n ih =>
      intro wi h hle
      simp only [scanFuel]
      by_cases hlt : wi < maxWalletIndex
      · rw [if_pos hlt]
        by_cases h0 : B.history (deriv wi) = 0
        · rw [if_pos h0]; right; exact h0
        · rw [if_neg h0]; exact ih (wi + 1) (by omega) (by omega)
      · rw [if_neg hlt]; left; omega

theorem scanFuel_stable (B : Backend) (deriv : Nat → String) :
    ∀ fuel wi, wi = maxWalletIndex ∨ B.history (deriv wi) = 0 →
      scanFuel B deriv fuel wi = wi := by
  intro fuel
  induction fuel with
  | zero => intro wi _; simp [scanFuel]
  | succ n _ =>
      intro wi h
      simp only [scanFuel]
      rcases h with rfl | h0
      · simp
      · split
        · simp [h0]
        · rfl

theorem updateWalletIndex_le_max (B : Backend) (deriv : Nat → String) (wi : Nat)
    (h : wi ≤ maxWalletIndex) : updateWalletIndex B deriv wi ≤ maxWalletIndex :=
  scanFuel_le_max B deriv _ wi h

theorem updateWalletIndex_at_max (B : Backend) (deriv : Nat → String) (wi : Nat)
    (h : maxWalletIndex ≤ wi) : updateWalletIndex B deriv wi = wi := by
  have : maxWalletIndex - wi = 0 := by omega
  rw [updateWalletIndex, this]
  rfl

/-- C3: starting from any wallet index `i0 ≤ 1000`, `_updateWalletIndex` never decreases the index, caps it at `MAX_INDEX = 1000`, skips exactly the indices whose addresses have non-empty history, stops at the first index with empty history (or at the cap), and running it again from the reached state changes nothing. -/
theorem updateWalletIndex_spec (B : Backend) (deriv : Nat → String) (i0 : Nat)
    (h : i0 ≤ maxWalletIndex) :
    i0 ≤ updateWalletIndex B deriv i0 ∧
    updateWalletIndex B deriv i0 ≤ maxWalletIndex ∧
    (∀ j, i0 ≤ j → j < updateWalletIndex B deriv i0 → B.history (deriv j) ≠ 0) ∧
    (updateWalletIndex B deriv i0 = maxWalletIndex ∨
      B.history (deriv (updateWalletIndex B deriv i0)) = 0) ∧
    updateWalletIndex B deriv (updateWalletIndex B deriv i0) =
      updateWalletIndex B deriv i0 := by
  have hfuel : maxWalletIndex ≤ (maxWalletIndex - i0) + i0 := by omega
  refine ⟨scanFuel_le_self B deriv _ i0, scanFuel_le_max B deriv _ i0 h, ?_, ?_, ?_⟩
  · exact scanFuel_not_zero B deriv _ i0 hfuel
  · exact scanFuel_stops B deriv _ i0 hfuel h
  · exact scanFuel_stable B deriv _ _ (scanFuel_stops B deriv _ i0 hfuel h)

theorem getAddress_ok (deriv : Nat → String) (wi : Nat) (h : wi ≤ maxWalletIndex) :
    getAddress deriv (wi : Int) = .ok (deriv wi) := by
  have h1000 : maxWalletIndex = 1000 := rfl
  rw [getAddress, if_pos]
  · simp
  · rw [h1000] at h ⊢
    constructor <;> omega

theorem getAddress_pred_ok (deriv : Nat → String) (wi : Nat) (h1 : 1 ≤ wi)
    (h2 : wi ≤ maxWalletIndex + 1) :
    getAddress deriv ((wi : Int) - 1) = .ok (deriv (wi - 1)) := by
  have h1000 : maxWalletIndex = 1000 := rfl
  rw [h1000] at h2
  rw [getAddress, if_pos]
  · have ht : ((wi : Int) - 1).toNat = wi - 1 := by omega
    rw [ht]
  · rw [h1000]
    constructor <;> omega

theorem getPrivateKey_pred_ok (privKey : Nat → Nat) (wi : Nat) (h1 : 1 ≤ wi)
    (h2 : wi ≤ maxWalletIndex + 1) :
    getPrivateKey privKey ((wi : Int) - 1) = .ok (privKey (wi - 1)) := by
  have h1000 : maxWalletIndex = 1000 := rfl
  rw [h1000] at h2
  rw [getPrivateKey, if_pos]
  · have ht : ((wi : Int) - 1).toNat = wi - 1 := by omega
    rw [ht]
  · rw [h1000]
    constructor <;> omega

theorem buildTransaction_eq_ok (deriv : Nat → String) (privKey : Nat → Nat)
    (inputs : List Input) (recipient : String) (amount fee : ℚ) (wi : Nat)
    (hwi1 : 1 ≤ wi) (hwi2 : wi ≤ maxWalletIndex)
    (hT : amount + fee ≤ inputsBalance inputs) :
    buildTransaction deriv privKey inputs recipient amount fee wi
      = (.ok { inputs := inputs
               outputs :=
                 if recipient ≠ deriv wi then
                   (recipient, amount) ::
                     (if inputsBalance inputs - amount - fee > 0 then
                       [(deriv wi, inputsBalance inputs - amount - fee)]
                      else [])
                 else
                   [(recipient, amount + (inputsBalance inputs - amount - fee))]
               signKey := privKey (wi - 1) }, wi) := by
  rw [buildTransaction]
  rw [if_neg (not_lt.mpr hT)]
  rw [getAddress_ok deriv wi hwi2, getPrivateKey_pred_ok privKey wi hwi1 (by omega)]

/-- C1: for inputs totaling `T`, amount `A` and fee `F` with `T ≥ A + F` (and a usable wallet index), `_buildTransaction` succeeds and its outputs sum to exactly `T - F`: a recipient output of `A`, plus a change output of `T - A - F` only when that change is strictly positive, or a single merged output when the recipient is the change address. -/
theorem buildTransaction_sum (deriv : Nat → String) (privKey : Nat → Nat)
    (inputs : List Input) (recipient : String) (amount fee : ℚ) (wi : Nat)
    (hwi1 : 1 ≤ wi) (hwi2 : wi ≤ maxWalletIndex)
    (hT : amount + fee ≤ inputsBalance inputs) :
    ∃ tx, (buildTransaction deriv privKey inputs recipient amount fee wi).1 = .ok tx ∧
      outputsSum tx = inputsBalance inputs - fee ∧
      (recipient ≠ deriv wi →
        tx.outputs = (recipient, amount) ::
          (if inputsBalance inputs - amount - fee > 0 then
            [(deriv wi, inputsBalance inputs - amount - fee)]
           else [])) ∧
      (recipient = deriv wi →
        tx.outputs = [(recipient, amount + (inputsBalance inputs - amount - fee))]) := by
  rw [buildTransaction_eq_ok deriv privKey inputs recipient amount fee wi hwi1 hwi2 hT]
  refine ⟨_, rfl, ?_, ?_, ?_⟩
  · by_cases hr : recipient = deriv wi
    · simp only [outputsSum, hr, ite_not, if_pos rfl]
      simp
      ring
    · simp only [outputsSum, if_pos hr]
      by_cases hc : inputsBalance inputs - amount - fee > 0
      · rw [if_pos hc]
        simp
        ring
      · rw [if_neg hc]
        simp only [List.map_cons, List.map_nil, List.sum_cons, List.sum_nil, add_zero]
        have : inputsBalance inputs - amount - fee = 0 := by linarith
        linarith
  · intro hr
    simp [if_pos hr]
  · intro hr
    simp [hr]

/-- C2: `_buildTransaction` fails with `InsufficientFunds` exactly when the inputs' satoshi total is strictly below `amount + fee`; on failure no transaction is produced, and the wallet-index component of the result is always the unchanged input index. -/
theorem buildTransaction_insufficient (deriv : Nat → String) (privKey : Nat → Nat)
    (inputs : List Input) (recipient : String) (amount fee : ℚ) (wi : Nat) :
    ((buildTransaction deriv privKey inputs recipient amount fee wi).1
        = .error .insufficientFunds ↔ inputsBalance inputs < amount + fee) ∧
    (inputsBalance inputs < amount + fee →
      ∀ tx, (buildTransaction deriv privKey inputs recipient amount fee wi).1 ≠ .ok tx) ∧
    (buildTransaction deriv privKey inputs recipient amount fee wi).2 = wi := by
  rw [buildTransaction]
  by_cases hb : inputsBalance inputs < amount + fee
  · rw [if_pos hb]
    exact ⟨⟨fun _ => hb, fun _ => rfl⟩, fun _ tx h => by simp at h, rfl⟩
  · rw [if_neg hb]
    refine ⟨⟨?_, fun h => absurd h hb⟩, fun h => absurd h hb, ?_⟩
    · intro h
      exfalso
      rw [getAddress, getPrivateKey] at h
      split_ifs at h <;> simp_all
    · rw [getAddress, getPrivateKey]
      split_ifs <;> rfl

/-- C4: when the recipient equals the change address (the address derived at the current wallet index) and funds suffice, `_buildTransaction` produces exactly one output whose value is `amount + change`, never two outputs to the same script. -/
theorem buildTransaction_selfPayment (deriv : Nat → String) (privKey : Nat → Nat)
    (inputs : List Input) (amount fee : ℚ) (wi : Nat)
    (hwi1 : 1 ≤ wi) (hwi2 : wi ≤ maxWalletIndex)
    (hT : amount + fee ≤ inputsBalance inputs) :
    (buildTransaction deriv privKey inputs (deriv wi) amount fee wi).1
      = .ok { inputs := inputs
              outputs := [(deriv wi, amount + (inputsBalance inputs - amount - fee))]
              signKey := privKey (wi - 1) } := by
  rw [buildTransaction_eq_ok deriv privKey inputs (deriv wi) amount fee wi hwi1 hwi2 hT]
  simp

theorem getAvailableInputs_zero (B : Backend) (deriv : Nat → String) :
    getAvailableInputs B deriv 0 = (.error (.invalidArgument "index"), []) := by
  rw [getAvailableInputs, getAddress, if_neg]
  simp

theorem getAvailableInputs_pos (B : Backend) (deriv : Nat → String) (wi : Nat)
    (h1 : 1 ≤ wi) (h2 : wi ≤ maxWalletIndex + 1) :
    getAvailableInputs B deriv wi
      = (.ok ((B.utxos (deriv (wi - 1))).map normalizeUtxo),
         [.utxoQuery (deriv (wi - 1))]) := by
  rw [getAvailableInputs, getAddress_pred_ok deriv wi h1 h2]

/-- C5 (amended): at wallet index 0, `_getAvailableInputs` fails with the invalid-argument error raised by the derivation-index bounds check — the code defines no separate `InsufficientHistory` error kind — and issues no UTXO query; at wallet index ≥ 1 it returns the unspent outputs of the address at index − 1 normalized to the `Input` shape. -/
theorem getAvailableInputs_spec (B : Backend) (deriv : Nat → String) (wi : Nat)
    (hwi : wi ≤ maxWalletIndex) :
    (wi = 0 →
      getAvailableInputs B deriv wi = (.error (.invalidArgument "index"), [])) ∧
    (1 ≤ wi →
      getAvailableInputs B deriv wi
        = (.ok ((B.utxos (deriv (wi - 1))).map normalizeUtxo),
           [.utxoQuery (deriv (wi - 1))])) := by
  constructor
  · rintro rfl
    exact getAvailableInputs_zero B deriv
  · intro h1
    exact getAvailableInputs_pos B deriv wi h1 (by omega)

theorem ceil_bytes_rate (b : Nat) :
    ⌈(b : ℚ) * (11 / 10)⌉ = ((11 * b + 9) / 10 : Nat) := by
  rw [Int.ceil_eq_iff]
  set k := (11 * b + 9) / 10 with hk
  have h1 : 11 * b ≤ 10 * k := by omega
  have h2 : 10 * k ≤ 11 * b + 9 := by omega
  have h1Q : (11 : ℚ) * b ≤ 10 * k := by exact_mod_cast h1
  have h2Q : (10 : ℚ) * k ≤ 11 * b + 9 := by exact_mod_cast h2
  constructor
  · push_cast
    linarith
  · push_cast
    linarith

theorem calculateFee_eq_of_build (serHexLen : SignedTx → Nat) (deriv : Nat → String)
    (privKey : Nat → Nat) (inputs : List Input) (recipient : String)
    (amount : ℚ) (wi : Nat) (tx : SignedTx)
    (h : buildTransaction deriv privKey inputs recipient amount 0 wi = (.ok tx, wi)) :
    (calculateFee serHexLen deriv privKey inputs recipient amount wi).1
      = .ok ((⌈roundDouble ((serHexLen tx : ℚ) / 2 * satoshisPerByte)⌉ : ℤ) : ℚ) := by
  rw [calculateFee, h]

theorem scanOpsFuel_histOnly (B : Backend) (deriv : Nat → String) :
    ∀ fuel wi op, op ∈ scanOpsFuel B deriv fuel wi → ∃ a, op = .addrHistory a := by
  intro fuel
  induction fuel with
  | zero => intro wi op h; simp [scanOpsFuel] at h
  | succ n ih =>
      intro wi op h
      simp only [scanOpsFuel] at h
      by_cases hlt : wi < maxWalletIndex
      · rw [if_pos hlt] at h
        by_cases h0 : B.history (deriv wi) = 0
        · rw [if_pos h0] at h
          simp at h
          exact ⟨_, h⟩
        · rw [if_neg h0] at h
          rcases List.mem_cons.mp h with rfl | h'
          · exact ⟨_, rfl⟩
          · exact ih (wi + 1) op h'
      · rw [if_neg hlt] at h
        simp at h

/-- C9: `getBalance` re-scans first; when the wallet index after the scan is 0 it returns 0 and its network trace contains no balance query; when the index is ≥ 1 it returns the backend balance of the address at index − 1. -/
theorem getBalance_spec (B : Backend) (deriv : Nat → String) (st : Nat)
    (hst : st ≤ maxWalletIndex) :
    (updateWalletIndex B deriv st = 0 →
      (getBalance B deriv st).1 = .ok 0 ∧
      ∀ op ∈ (getBalance B deriv st).2.2, ∀ a, op ≠ .balanceQuery a) ∧
    (1 ≤ updateWalletIndex B deriv st →
      (getBalance B deriv st).1
        = .ok (B.balanceSat (deriv (updateWalletIndex B deriv st - 1)))) := by
  constructor
  · intro h0
    rw [getBalance]
    simp only [h0, if_pos rfl]
    refine ⟨rfl, ?_⟩
    intro op hop a
    obtain ⟨a', rfl⟩ := scanOpsFuel_histOnly B deriv _ st op hop
    simp
  · intro h1
    have hle := updateWalletIndex_le_max B deriv st hst
    rw [getBalance]
    simp only [if_neg (by omega : ¬ updateWalletIndex B deriv st = 0)]
    rw [getAddress_pred_ok deriv _ h1 (by omega)]

theorem send_someFee_eq (B : Backend) (deriv : Nat → String) (privKey : Nat → Nat)
    (serHexLen : SignedTx → Nat) (isValid : String → Bool) (recipient : String)
    (amount f : ℚ) (st : Nat) (inputs : List Input) (t2 : List NetOp) (tx : SignedTx)
    (hv : isValid recipient = true)
    (ha : numberIsInteger amount = true)
    (hf : numberIsInteger f = true)
    (hinp : getAvailableInputs B deriv (updateWalletIndex B deriv st) = (.ok inputs, t2))
    (hb : buildTransaction deriv privKey inputs recipient amount f
            (updateWalletIndex B deriv st) = (.ok tx, updateWalletIndex B deriv st)) :
    send B deriv privKey serHexLen isValid recipient amount (some f) st
      = (.ok (B.broadcastResult tx), updateWalletIndex B deriv st,
         scanOps B deriv st ++ t2 ++ [.broadcastTx]) := by
  rw [send]
  simp only [hv, ha, hf, Option.all_some, not_true, if_false, hinp, hb]

/-- C7: `widthraw` spends all available inputs with amount equal to the inputs' satoshi total minus the fee estimated for sending the full balance, so for a recipient distinct from the change address the broadcast transaction carries exactly one output of `balance − fee` and no change output. -/
theorem widthraw_spec (B : Backend) (deriv : Nat → String) (privKey : Nat → Nat)
    (serHexLen : SignedTx → Nat) (isValid : String → Bool) (recipient : String)
    (st : Nat) (hv : isValid recipient = true) (hst : st ≤ maxWalletIndex)
    (hwi1 : 1 ≤ updateWalletIndex B deriv st)
    (hne : recipient ≠ deriv (updateWalletIndex B deriv st)) :
    ∃ tx fee,
      tx.inputs = (B.utxos (deriv (updateWalletIndex B deriv st - 1))).map normalizeUtxo ∧
      (calculateFee serHexLen deriv privKey tx.inputs recipient
          (inputsBalance tx.inputs) (updateWalletIndex B deriv st)).1 = .ok fee ∧
      tx.outputs = [(recipient, inputsBalance tx.inputs - fee)] ∧
      (widthraw B deriv privKey serHexLen isValid recipient st).1
        = .ok (B.broadcastResult tx) := by
  set wi := updateWalletIndex B deriv st with hwi
  have hle : wi ≤ maxWalletIndex := updateWalletIndex_le_max B deriv st hst
  set inputs := (B.utxos (deriv (wi - 1))).map normalizeUtxo with hinputs
  set balance := inputsBalance inputs with hbal
  have hinp : getAvailableInputs B deriv wi = (.ok inputs, [.utxoQuery (deriv (wi - 1))]) :=
    getAvailableInputs_pos B deriv wi hwi1 (by omega)
  have hb0 := buildTransaction_eq_ok deriv privKey inputs recipient balance 0 wi hwi1 hle
    (by linarith)
  obtain ⟨fee, hfee⟩ :
      ∃ fee, (calculateFee serHexLen deriv privKey inputs recipient balance wi).1 = .ok fee :=
    ⟨_, calculateFee_eq_of_build serHexLen deriv privKey inputs recipient balance wi _ hb0⟩
  have hb := buildTransaction_eq_ok deriv privKey inputs recipient (balance - fee) fee wi
    hwi1 hle (by linarith)
  have hchange : balance - (balance - fee) - fee = 0 := by ring
  rw [hchange] at hb
  rw [if_neg (lt_irrefl (0 : ℚ)), if_pos hne] at hb
  refine ⟨{ inputs := inputs
            outputs := [(recipient, balance - fee)]
            signKey := privKey (wi - 1) }, fee, rfl, hfee, rfl, ?_⟩
  rw [widthraw]
  simp only [hv, not_true, if_false, hinp, ← hbal, hfee, hb]

/-- C8 (amended): when the recipient is not a well-formed address, or the amount is not an integer, or the fee is given and is not an integer, `send` fails with an invalid-argument error synchronously: no network operation is issued and the wallet index is unchanged. The code validates with `Number.isInteger` only, so negative integer amounts or fees are not rejected (see the counterexample). -/
theorem send_validation (B : Backend) (deriv : Nat → String) (privKey : Nat → Nat)
    (serHexLen : SignedTx → Nat) (isValid : String → Bool) (recipient : String)
    (amount : ℚ) (feeArg : Option ℚ) (st : Nat)
    (h : isValid recipient = false ∨ numberIsInteger amount = false ∨
         ∃ f, feeArg = some f ∧ numberIsInteger f = false) :
    (∃ arg, (send B deriv privKey serHexLen isValid recipient amount feeArg st).1
        = .error (.invalidArgument arg)) ∧
    (send B deriv privKey serHexLen isValid recipient amount feeArg st).2.1 = st ∧
    (send B deriv privKey serHexLen isValid recipient amount feeArg st).2.2 = [] := by
  by_cases hv : isValid recipient = true
  · by_cases ha : numberIsInteger amount = true
    · rcases h with h | h | ⟨f, rfl, hf⟩
      · rw [hv] at h; cases h
      · rw [ha] at h; cases h
      · rw [send, if_neg (by simp [hv]), if_neg (by simp [ha]),
          if_pos (by simp [hf])]
        exact ⟨⟨"fee", rfl⟩, rfl, rfl⟩
    · rw [send, if_neg (by simp [hv]), if_pos (by simpa using ha)]
      exact ⟨⟨"amount", rfl⟩, rfl, rfl⟩
  · rw [send, if_pos (by simpa using hv)]
    exact ⟨⟨"recipient", rfl⟩, rfl, rfl⟩

theorem getBalance_idx (B : Backend) (deriv : Nat → String) (st : Nat) :
    (getBalance B deriv st).2.1 = updateWalletIndex B deriv st := by
  rw [getBalance]
  by_cases h : updateWalletIndex B deriv st = 0
  · simp [h]
  · simp only [if_neg h]
    rcases hA : getAddress deriv ((updateWalletIndex B deriv st : Int) - 1) with e | a <;>
      simp [hA]

theorem send_idx (B : Backend) (deriv : Nat → String) (privKey : Nat → Nat)
    (serHexLen : SignedTx → Nat) (isValid : String → Bool) (recipient : String)
    (amount : ℚ) (feeArg : Option ℚ) (st : Nat) :
    (send B deriv privKey serHexLen isValid recipient amount feeArg st).2.1 = st ∨
    (send B deriv privKey serHexLen isValid recipient amount feeArg st).2.1
      = updateWalletIndex B deriv st := by
  rw [send]
  by_cases h1 : ¬ isValid recipient = true
  · rw [if_pos h1]; exact Or.inl rfl
  rw [if_neg h1]
  by_cases h2 : ¬ numberIsInteger amount = true
  · rw [if_pos h2]; exact Or.inl rfl
  rw [if_neg h2]
  by_cases h3 : ¬ (feeArg.all fun f => numberIsInteger f) = true
  · rw [if_pos h3]; exact Or.inl rfl
  rw [if_neg h3]
  right
  rcases hI : getAvailableInputs B deriv (updateWalletIndex B deriv st) with ⟨res, t2⟩
  cases res with
  | error e => simp [hI]
  | ok inputs =>
      cases feeArg with
      | some f =>
          rcases hB : buildTransaction deriv privKey inputs recipient amount f
              (updateWalletIndex B deriv st) with ⟨res2, w2⟩
          cases res2 <;> simp [hI, hB]
      | none =>
          rcases hF : (calculateFee serHexLen deriv privKey inputs recipient amount
              (updateWalletIndex B deriv st)).1 with e | fee
          · simp [hI, hF]
          · rcases hB : buildTransaction deriv privKey inputs recipient amount fee
                (updateWalletIndex B deriv st) with ⟨res2, w2⟩
            cases res2 <;> simp [hI, hF, hB]

theorem widthraw_idx (B : Backend) (deriv : Nat → String) (privKey : Nat → Nat)
    (serHexLen : SignedTx → Nat) (isValid : String → Bool) (recipient : String)
    (st : Nat) :
    (widthraw B deriv privKey serHexLen isValid recipient st).2.1 = st ∨
    (widthraw B deriv privKey serHexLen isValid recipient st).2.1
      = updateWalletIndex B deriv st := by
  rw [widthraw]
  by_cases h1 : isValid recipient = true
  · rw [if_neg (by simp [h1])]
    right
    rcases hI : getAvailableInputs B deriv (updateWalletIndex B deriv st) with ⟨res, t2⟩
    cases res with
    | error e => simp [hI]
    | ok inputs =>
        rcases hF : (calculateFee serHexLen deriv privKey inputs recipient
            (inputsBalance inputs) (updateWalletIndex B deriv st)).1 with e | fee
        · simp [hI, hF]
        · rcases hB : buildTransaction deriv privKey inputs recipient
              (inputsBalance inputs - fee) fee (updateWalletIndex B deriv st) with ⟨res2, w2⟩
          cases res2 <;> simp [hI, hF, hB]
  · rw [if_pos h1]; exact Or.inl rfl

/-- C10: the constructor establishes wallet index 0; every public operation (`initialize`, `getBalance`, `getReceiveAddress`, `send`, `widthraw`) keeps the index at most `MAX_INDEX = 1000` (non-negativity holds by the `Nat` representation), and the scan leaves any index at or beyond the bound unchanged. -/
theorem walletIndex_invariant (B : Backend) (deriv : Nat → String) (privKey : Nat → Nat)
    (serHexLen : SignedTx → Nat) (isValid : String → Bool) (recipient : String)
    (amount : ℚ) (feeArg : Option ℚ) (st : Nat) (hst : st ≤ maxWalletIndex) :
    initialWalletIndex = 0 ∧
    initWallet B deriv st ≤ maxWalletIndex ∧
    (getBalance B deriv st).2.1 ≤ maxWalletIndex ∧
    (getReceiveAddress B deriv st).2 ≤ maxWalletIndex ∧
    (send B deriv privKey serHexLen isValid recipient amount feeArg st).2.1
      ≤ maxWalletIndex ∧
    (widthraw B deriv privKey serHexLen isValid recipient st).2.1 ≤ maxWalletIndex ∧
    (∀ i, maxWalletIndex ≤ i → updateWalletIndex B deriv i = i) := by
  have hle := updateWalletIndex_le_max B deriv st hst
  refine ⟨rfl, hle, ?_, hle, ?_, ?_, ?_⟩
  · rw [getBalance_idx]; exact hle
  · rcases send_idx B deriv privKey serHexLen isValid recipient amount feeArg st with h | h <;>
      rw [h] <;> assumption
  · rcases widthraw_idx B deriv privKey serHexLen isValid recipient st with h | h <;>
      rw [h] <;> assumption
  · exact fun i hi => updateWalletIndex_at_max B deriv i hi

theorem specBalance : inputsBalance specInputs = 3000 := by
  norm_num [inputsBalance, specInputs, normalizeUtxo, specUtxo1, specUtxo2]

theorem spec_updateWalletIndex : updateWalletIndex specBackend specDeriv 0 = 1 := by
  decide

/-- Witness for C1 at the spec's concrete scenario: `T = 3000`, `A = 1500`, `F = 500`, fresh recipient. -/
theorem buildTransaction_sum_witness :
    ((1 : Nat) ≤ 1 ∧ (1 : Nat) ≤ maxWalletIndex ∧
      (1500 : ℚ) + 500 ≤ inputsBalance specInputs) ∧
    (∃ tx, (buildTransaction specDeriv specPrivKey specInputs "addrC" 1500 500 1).1
        = .ok tx ∧
      outputsSum tx = inputsBalance specInputs - 500 ∧
      ("addrC" ≠ specDeriv 1 →
        tx.outputs = ("addrC", (1500 : ℚ)) ::
          (if inputsBalance specInputs - 1500 - 500 > 0 then
            [(specDeriv 1, inputsBalance specInputs - 1500 - 500)]
           else [])) ∧
      ("addrC" = specDeriv 1 →
        tx.outputs = [("addrC", 1500 + (inputsBalance specInputs - 1500 - 500))])) := by
  have hT : (1500 : ℚ) + 500 ≤ inputsBalance specInputs := by
    rw [specBalance]; norm_num
  exact ⟨⟨le_refl 1, by decide, hT⟩,
    buildTransaction_sum specDeriv specPrivKey specInputs "addrC" 1500 500 1
      (le_refl 1) (by decide) hT⟩

/-- Witness for C2 at `T = 3000`, `A = 2600`, `F = 500` (insufficient). -/
theorem buildTransaction_insufficient_witness :
    ((buildTransaction specDeriv specPrivKey specInputs "addrC" 2600 500 1).1
        = .error .insufficientFunds ↔ inputsBalance specInputs < 2600 + 500) ∧
    (inputsBalance specInputs < 2600 + 500 →
      ∀ tx, (buildTransaction specDeriv specPrivKey specInputs "addrC" 2600 500 1).1
        ≠ .ok tx) ∧
    (buildTransaction specDeriv specPrivKey specInputs "addrC" 2600 500 1).2 = 1 :=
  buildTransaction_insufficient specDeriv specPrivKey specInputs "addrC" 2600 500 1

/-- Witness for C3: one used address, scan advances the index from 0 to 1. -/
theorem updateWalletIndex_witness :
    (0 : Nat) ≤ maxWalletIndex ∧
    (0 ≤ updateWalletIndex specBackend specDeriv 0 ∧
     updateWalletIndex specBackend specDeriv 0 ≤ maxWalletIndex ∧
     (∀ j, 0 ≤ j → j < updateWalletIndex specBackend specDeriv 0 →
        specBackend.history (specDeriv j) ≠ 0) ∧
     (updateWalletIndex specBackend specDeriv 0 = maxWalletIndex ∨
        specBackend.history (specDeriv (updateWalletIndex specBackend specDeriv 0)) = 0) ∧
     updateWalletIndex specBackend specDeriv (updateWalletIndex specBackend specDeriv 0)
        = updateWalletIndex specBackend specDeriv 0) :=
  ⟨by decide, updateWalletIndex_spec specBackend specDeriv 0 (by decide)⟩

/-- Witness for C4: self-payment to the change address merges into one output. -/
theorem buildTransaction_selfPayment_witness :
    ((1 : Nat) ≤ 1 ∧ (1 : Nat) ≤ maxWalletIndex ∧
      (1500 : ℚ) + 500 ≤ inputsBalance specInputs) ∧
    (buildTransaction specDeriv specPrivKey specInputs (specDeriv 1) 1500 500 1).1
      = .ok { inputs := specInputs
              outputs := [(specDeriv 1, 1500 + (inputsBalance specInputs - 1500 - 500))]
              signKey := specPrivKey 0 } := by
  have hT : (1500 : ℚ) + 500 ≤ inputsBalance specInputs := by
    rw [specBalance]; norm_num
  exact ⟨⟨le_refl 1, by decide, hT⟩,
    buildTransaction_selfPayment specDeriv specPrivKey specInputs 1500 500 1
      (le_refl 1) (by decide) hT⟩

/-- Witness for C5 at wallet index 1: the utxos of the address at index 0 are returned, normalized. -/
theorem getAvailableInputs_spec_witness :
    (1 : Nat) ≤ maxWalletIndex ∧
    (((1 : Nat) = 0 →
      getAvailableInputs specBackend specDeriv 1 = (.error (.invalidArgument "index"), [])) ∧
     (1 ≤ (1 : Nat) →
      getAvailableInputs specBackend specDeriv 1
        = (.ok ((specBackend.utxos (specDeriv (1 - 1))).map normalizeUtxo),
           [.utxoQuery (specDeriv (1 - 1))]))) :=
  ⟨by decide, getAvailableInputs_spec specBackend specDeriv 1 (by decide)⟩

/-- Counterexample for C5 as stated: at wallet index 0 the produced error is the invalid-argument error of the index bounds check — the same error any out-of-range derivation (such as index 1001) produces — not a distinct `InsufficientHistory` kind. -/
theorem getAvailableInputs_error_kind :
    (getAvailableInputs specBackend specDeriv 0).1 = .error (.invalidArgument "index") ∧
    (getAvailableInputs specBackend specDeriv 0).1 ≠ .error .insufficientHistory ∧
    getPrivateKey specPrivKey 1001 = .error (.invalidArgument "index") := by
  decide

/-- Witness for C7: withdrawing the whole 3000-satoshi balance to a fresh recipient. -/
theorem widthraw_spec_witness :
    (specValid "addrC" = true ∧ (0 : Nat) ≤ maxWalletIndex ∧
      1 ≤ updateWalletIndex specBackend specDeriv 0 ∧
      "addrC" ≠ specDeriv (updateWalletIndex specBackend specDeriv 0)) ∧
    (∃ tx fee,
      tx.inputs
        = (specBackend.utxos (specDeriv (updateWalletIndex specBackend specDeriv 0 - 1))).map
            normalizeUtxo ∧
      (calculateFee specSer specDeriv specPrivKey tx.inputs "addrC"
          (inputsBalance tx.inputs) (updateWalletIndex specBackend specDeriv 0)).1
        = .ok fee ∧
      tx.outputs = [("addrC", inputsBalance tx.inputs - fee)] ∧
      (widthraw specBackend specDeriv specPrivKey specSer specValid "addrC" 0).1
        = .ok (specBackend.broadcastResult tx)) :=
  ⟨⟨rfl, by decide, by decide, by decide⟩,
    widthraw_spec specBackend specDeriv specPrivKey specSer specValid "addrC" 0
      rfl (by decide) (by decide) (by decide)⟩

/-- Witness for the amended C8: a rejected recipient fails synchronously with no network trace. -/
theorem send_validation_witness :
    (specInvalid "addrC" = false ∨ numberIsInteger (5 : ℚ) = false ∨
      ∃ f, (none : Option ℚ) = some f ∧ numberIsInteger f = false) ∧
    ((∃ arg, (send specBackend specDeriv specPrivKey specSer specInvalid "addrC" 5 none 0).1
        = .error (.invalidArgument arg)) ∧
     (send specBackend specDeriv specPrivKey specSer specInvalid "addrC" 5 none 0).2.1 = 0 ∧
     (send specBackend specDeriv specPrivKey specSer specInvalid "addrC" 5 none 0).2.2 = []) :=
  ⟨Or.inl rfl,
    send_validation specBackend specDeriv specPrivKey specSer specInvalid "addrC" 5 none 0
      (Or.inl rfl)⟩

/-- Counterexample for C8 as stated: `-5` is an integer but not a non-negative one, yet `send` does not fail synchronously — it performs network operations and broadcasts successfully. -/
theorem send_negativeAmount_no_failure :
    numberIsInteger (-5 : ℚ) = true ∧ ((-5 : ℚ) < 0) ∧
    (send specBackend specDeriv specPrivKey specSer specValid "addrC" (-5) (some 0) 0).1
      = .ok "txid0" ∧
    (send specBackend specDeriv specPrivKey specSer specValid "addrC" (-5) (some 0) 0).2.2
      ≠ [] := by
  have hinp : getAvailableInputs specBackend specDeriv
      (updateWalletIndex specBackend specDeriv 0)
      = (.ok specInputs, [.utxoQuery "addrA"]) := by
    rw [spec_updateWalletIndex]; decide
  have hT : (-5 : ℚ) + 0 ≤ inputsBalance specInputs := by rw [specBalance]; norm_num
  have hb := buildTransaction_eq_ok specDeriv specPrivKey specInputs "addrC" (-5) 0 1
    (le_refl 1) (by decide) hT
  obtain ⟨tx, hb'⟩ :
      ∃ tx, buildTransaction specDeriv specPrivKey specInputs "addrC" (-5) 0
        (updateWalletIndex specBackend specDeriv 0)
        = (.ok tx, updateWalletIndex specBackend specDeriv 0) := by
    rw [spec_updateWalletIndex]
    exact ⟨_, hb⟩
  have hsend := send_someFee_eq specBackend specDeriv specPrivKey specSer specValid
    "addrC" (-5) 0 0 specInputs [.utxoQuery "addrA"] tx rfl (by decide) (by decide) hinp hb'
  refine ⟨by decide, by norm_num, ?_, ?_⟩
  · rw [hsend]
    rfl
  · rw [hsend]
    simp

/-- Witness for C9 with one used address: the balance of the address at index 0 is returned. -/
theorem getBalance_spec_witness :
    (0 : Nat) ≤ maxWalletIndex ∧
    ((updateWalletIndex specBackend specDeriv 0 = 0 →
      (getBalance specBackend specDeriv 0).1 = .ok 0 ∧
      ∀ op ∈ (getBalance specBackend specDeriv 0).2.2, ∀ a, op ≠ .balanceQuery a) ∧
     (1 ≤ updateWalletIndex specBackend specDeriv 0 →
      (getBalance specBackend specDeriv 0).1
        = .ok (specBackend.balanceSat
            (specDeriv (updateWalletIndex specBackend specDeriv 0 - 1))))) :=
  ⟨by decide, getBalance_spec specBackend specDeriv 0 (by decide)⟩

/-- Witness for C10 starting from index 0. -/
theorem walletIndex_invariant_witness :
    (0 : Nat) ≤ maxWalletIndex ∧
    (initialWalletIndex = 0 ∧
     initWallet specBackend specDeriv 0 ≤ maxWalletIndex ∧
     (getBalance specBackend specDeriv 0).2.1 ≤ maxWalletIndex ∧
     (getReceiveAddress specBackend specDeriv 0).2 ≤ maxWalletIndex ∧
     (send specBackend specDeriv specPrivKey specSer specValid "addrC" 5 none 0).2.1
        ≤ maxWalletIndex ∧
     (widthraw specBackend specDeriv specPrivKey specSer specValid "addrC" 0).2.1
        ≤ maxWalletIndex ∧
     (∀ i, maxWalletIndex ≤ i → updateWalletIndex specBackend specDeriv i = i)) :=
  ⟨by decide,
    walletIndex_invariant specBackend specDeriv specPrivKey specSer specValid "addrC"
      5 none 0 (by decide)⟩

end Topay
namespace Topay

/-- Characterization of the binary exponent: if `2^x ≤ q < 2^(x+1)` then `Int.log 2 q = x`. -/
theorem int_log2_eq (q : ℚ) (x : ℤ) (hq : 0 < q)
    (h1 : (2 : ℚ) ^ x ≤ q) (h2 : q < (2 : ℚ) ^ (x + 1)) : Int.log 2 q = x := by
  have hcast : ((2 : ℕ) : ℚ) = (2 : ℚ) := by norm_num
  have ha : x ≤ Int.log 2 q :=
    (Int.zpow_le_iff_le_log (by norm_num) hq).mp (by rw [hcast]; exact h1)
  have hb : Int.log 2 q < x + 1 :=
    (Int.lt_zpow_iff_log_lt (by norm_num) hq).mp (by rw [hcast]; exact h2)
  omega

/-- Rounding a significand to the nearest integer (ties to even) moves it by at most `1/2`. -/
theorem roundSig_bounds (m : ℚ) :
    m - 1 / 2 ≤ (roundSig m : ℚ) ∧ (roundSig m : ℚ) ≤ m + 1 / 2 := by
  have hf1 : (⌊m⌋ : ℚ) ≤ m := Int.floor_le m
  have hf2 : m < ⌊m⌋ + 1 := Int.lt_floor_add_one m
  rw [roundSig]
  split_ifs with h1 h2 h3
  · constructor <;> [linarith; linarith]
  · push_cast
    constructor <;> [linarith; linarith]
  · constructor <;> [linarith; linarith]
  · push_cast
    constructor <;> [linarith; linarith]

/-- Relative error of one binary64 rounding: `roundDouble q` differs from a positive `q` by at most `q / 2^53` (half an ulp). -/
theorem roundDouble_err (q : ℚ) (hq : 0 < q) :
    q - q / 2 ^ 53 ≤ roundDouble q ∧ roundDouble q ≤ q + q / 2 ^ 53 := by
  rw [roundDouble, if_pos hq]
  set e : ℤ := Int.log 2 q - 52 with he
  set m : ℚ := q / 2 ^ e with hm
  have h2e : (0 : ℚ) < 2 ^ e := by positivity
  have hqm : q = m * 2 ^ e := by
    rw [hm]
    field_simp
  obtain ⟨hr1, hr2⟩ := roundSig_bounds m
  have hlog : (2 : ℚ) ^ Int.log 2 q ≤ q := by
    have := Int.zpow_log_le_self (b := 2) (r := q) (by norm_num) hq
    simpa using this
  have h2e_le : (2 : ℚ) ^ e ≤ q / 2 ^ (52 : ℕ) := by
    rw [he, zpow_sub₀ (by norm_num : (2 : ℚ) ≠ 0)]
    have h52 : ((2 : ℚ) ^ (52 : ℤ)) = (2 : ℚ) ^ (52 : ℕ) := by norm_num
    rw [h52]
    exact (div_le_div_iff_of_pos_right (by positivity)).mpr hlog
  have h53 : q / 2 ^ (52 : ℕ) / 2 = q / 2 ^ (53 : ℕ) := by
    rw [div_div]
    norm_num
  have hhalf : 2 ^ e / 2 ≤ q / 2 ^ (53 : ℕ) := by
    rw [← h53]
    linarith
  constructor
  · have hlb : (m - 1 / 2) * 2 ^ e ≤ (roundSig m : ℚ) * 2 ^ e :=
      mul_le_mul_of_nonneg_right hr1 (le_of_lt h2e)
    have hexp : (m - 1 / 2) * 2 ^ e = q - 2 ^ e / 2 := by
      rw [hqm]
      ring
    linarith
  · have hub : (roundSig m : ℚ) * 2 ^ e ≤ (m + 1 / 2) * 2 ^ e :=
      mul_le_mul_of_nonneg_right hr2 (le_of_lt h2e)
    have hexp : (m + 1 / 2) * 2 ^ e = q + 2 ^ e / 2 := by
      rw [hqm]
      ring
    linarith

/-- For byte counts up to `2^49`, the ceiling of the binary64 product `bytes * double(1.1)` is the idealized `⌈bytes * 11/10⌉` or exceeds it by exactly one satoshi. -/
theorem roundDouble_fee_bounds (b : Nat) (hb : (b : ℚ) ≤ 2 ^ 49) :
    ⌈(b : ℚ) * (11 / 10)⌉ ≤ ⌈roundDouble ((b : ℚ) * satoshisPerByte)⌉ ∧
    ⌈roundDouble ((b : ℚ) * satoshisPerByte)⌉ ≤ ⌈(b : ℚ) * (11 / 10)⌉ + 1 := by
  rcases Nat.eq_zero_or_pos b with rfl | hbpos
  · norm_num [roundDouble]
  have hbQ : (0 : ℚ) < b := by exact_mod_cast hbpos
  have hrate : satoshisPerByte = 11 / 10 + 1 / (5 * 2 ^ 51) := by
    rw [satoshisPerByte]
    norm_num
  set q : ℚ := (b : ℚ) * satoshisPerByte with hqdef
  set x : ℚ := (b : ℚ) * (11 / 10) with hxdef
  have hq : 0 < q := by
    rw [hqdef, hrate]
    positivity
  obtain ⟨hlo, hhi⟩ := roundDouble_err q hq
  have hqx : q = x + (b : ℚ) / (5 * 2 ^ 51) := by
    rw [hqdef, hxdef, hrate]
    ring
  have hδpos : (0 : ℚ) ≤ (b : ℚ) / (5 * 2 ^ 51) := by positivity
  have hδ : (b : ℚ) / (5 * 2 ^ 51) ≤ 1 / 20 := by
    rw [div_le_iff₀ (by norm_num : (0 : ℚ) < 5 * 2 ^ 51)]
    have h49 : (1 : ℚ) / 20 * (5 * 2 ^ 51) = 2 ^ 49 := by norm_num
    linarith
  have hq53 : q / 2 ^ 53 < 1 / 10 := by
    have hc : satoshisPerByte ≤ 23 / 20 := by
      rw [satoshisPerByte]
      norm_num
    have h1 : q ≤ (2 : ℚ) ^ 49 * (23 / 20) := by
      rw [hqdef]
      calc (b : ℚ) * satoshisPerByte ≤ (b : ℚ) * (23 / 20) :=
            mul_le_mul_of_nonneg_left hc (le_of_lt hbQ)
        _ ≤ (2 : ℚ) ^ 49 * (23 / 20) := by linarith
    have h2 : ((2 : ℚ) ^ 49 * (23 / 20)) / 2 ^ 53 < 1 / 10 := by norm_num
    linarith
  set K : Nat := (11 * b + 9) / 10 with hK
  have hk := ceil_bytes_rate b
  rw [← hK] at hk
  have h1 : 11 * b ≤ 10 * K := by omega
  have h2 : 10 * K ≤ 11 * b + 9 := by omega
  have h1Q : (11 : ℚ) * b ≤ 10 * K := by exact_mod_cast h1
  have h2Q : (10 : ℚ) * K ≤ 11 * b + 9 := by exact_mod_cast h2
  have hx10 : 10 * x = 11 * (b : ℚ) := by
    rw [hxdef]
    ring
  rw [hxdef, hk]
  constructor
  · have hlt : ((K : ℤ) - 1 : ℤ) < ⌈roundDouble q⌉ := by
      rw [Int.lt_ceil]
      push_cast
      linarith
    omega
  · rw [Int.ceil_le]
    push_cast
    linarith

/-- The binary64 product `50 * double(1.1)` rounds up to `55 + 2^-47` (the JavaScript value `55.00000000000001`), strictly above the exact `55`. -/
theorem roundDouble_fifty :
    roundDouble ((50 : ℚ) * satoshisPerByte) = 7740561859543041 / 2 ^ 47 := by
  have hq : (0 : ℚ) < 50 * satoshisPerByte := by
    rw [satoshisPerByte]
    norm_num
  have hlog : Int.log 2 ((50 : ℚ) * satoshisPerByte) = 5 := by
    apply int_log2_eq _ _ hq
    · rw [satoshisPerByte]
      norm_num
    · rw [satoshisPerByte]
      norm_num
  rw [roundDouble, if_pos hq, hlog]
  have he : (5 : ℤ) - 52 = -47 := by norm_num
  rw [he]
  have h2 : ((2 : ℚ) ^ (-47 : ℤ)) = ((2 : ℚ) ^ (47 : ℕ))⁻¹ := by
    rw [zpow_neg]
    norm_num
  rw [h2]
  have hm : (50 : ℚ) * satoshisPerByte / ((2 : ℚ) ^ (47 : ℕ))⁻¹
      = 7740561859543040 + 5 / 8 := by
    rw [satoshisPerByte]
    norm_num
  rw [hm, roundSig]
  have hfl : ⌊(7740561859543040 + 5 / 8 : ℚ)⌋ = 7740561859543040 := by
    rw [Int.floor_eq_iff]
    constructor <;> norm_num
  rw [hfl]
  rw [if_neg (by norm_num), if_pos (by norm_num)]
  push_cast
  norm_num

/-- C6 (amended): `_calculateFee` sizes the transaction by building it once with fee 0 (the only sizing step), takes the serialized hex length divided by two as the byte count, multiplies it in IEEE-754 binary64 arithmetic by the stored rate `double(1.1) = 4953959590107546/2^52` (one rounding to nearest, ties to even) and applies `Math.ceil`; for an even hex length `2·b` with `b ≤ 2^49` the resulting fee equals the idealized `⌈b · 11/10⌉ = (11·b + 9)/10` or exceeds it by exactly one satoshi. -/
theorem calculateFee_spec (serHexLen : SignedTx → Nat) (deriv : Nat → String)
    (privKey : Nat → Nat) (inputs : List Input) (recipient : String)
    (amount : ℚ) (wi : Nat) (hwi1 : 1 ≤ wi) (hwi2 : wi ≤ maxWalletIndex)
    (hT : amount ≤ inputsBalance inputs) :
    ∃ tx, (buildTransaction deriv privKey inputs recipient amount 0 wi).1 = .ok tx ∧
      (calculateFee serHexLen deriv privKey inputs recipient amount wi).1
        = .ok ((⌈roundDouble ((serHexLen tx : ℚ) / 2 * satoshisPerByte)⌉ : ℤ) : ℚ) ∧
      (∀ b : Nat, serHexLen tx = 2 * b → (b : ℚ) ≤ 2 ^ 49 →
        (calculateFee serHexLen deriv privKey inputs recipient amount wi).1
          = .ok ((⌈roundDouble ((b : ℚ) * satoshisPerByte)⌉ : ℤ) : ℚ) ∧
        ⌈(b : ℚ) * (11 / 10)⌉ = ((11 * b + 9) / 10 : Nat) ∧
        ⌈(b : ℚ) * (11 / 10)⌉ ≤ ⌈roundDouble ((b : ℚ) * satoshisPerByte)⌉ ∧
        ⌈roundDouble ((b : ℚ) * satoshisPerByte)⌉ ≤ ⌈(b : ℚ) * (11 / 10)⌉ + 1) := by
  have hT0 : amount + 0 ≤ inputsBalance inputs := by linarith
  have hb := buildTransaction_eq_ok deriv privKey inputs recipient amount 0 wi hwi1 hwi2 hT0
  have hc := calculateFee_eq_of_build serHexLen deriv privKey inputs recipient amount wi _ hb
  refine ⟨_, by rw [hb], hc, ?_⟩
  intro b hbb hble
  have hhalf : ((2 * b : ℕ) : ℚ) / 2 = (b : ℚ) := by
    push_cast
    ring
  refine ⟨?_, ceil_bytes_rate b,
    (roundDouble_fee_bounds b hble).1, (roundDouble_fee_bounds b hble).2⟩
  rw [hc, hbb, hhalf]

/-- Counterexample for C6 as stated: at a 100-hex-character (50-byte) serialization the program's fee is 56 satoshis — `Math.ceil(50 * 1.1)` evaluates to 56 in binary64 because `50 * double(1.1)` rounds up past 55 — while the claim's exact formula `⌈bytes × 1.1⌉` gives 55. -/
theorem calculateFee_float_vs_exact :
    (calculateFee serHex100 specDeriv specPrivKey specInputs "addrC" 3000 1).1 = .ok 56 ∧
    (⌈((100 : ℚ) / 2) * (11 / 10)⌉ : ℤ) = 55 := by
  constructor
  · have hT0 : (3000 : ℚ) + 0 ≤ inputsBalance specInputs := by
      rw [specBalance]
      norm_num
    have hb := buildTransaction_eq_ok specDeriv specPrivKey specInputs "addrC" 3000 0 1
      (le_refl 1) (by decide) hT0
    have hc := calculateFee_eq_of_build serHex100 specDeriv specPrivKey specInputs "addrC"
      3000 1 _ hb
    rw [hc]
    simp only [serHex100]
    rw [show ((100 : ℕ) : ℚ) / 2 * satoshisPerByte = (50 : ℚ) * satoshisPerByte by norm_num]
    rw [roundDouble_fifty]
    rw [show (⌈(7740561859543041 / 2 ^ 47 : ℚ)⌉ : ℤ) = 56 by
      rw [Int.ceil_eq_iff]
      constructor <;> norm_num]
    norm_num
  · rw [show ((100 : ℚ) / 2) * (11 / 10) = ((55 : ℤ) : ℚ) by norm_num, Int.ceil_intCast]

/-- Witness for the amended C6: the fee for sending the full 3000-satoshi balance of a 113-byte transaction, with the bounds conjunct applicable at `b = 113`. -/
theorem calculateFee_spec_witness :
    ((1 : Nat) ≤ 1 ∧ (1 : Nat) ≤ maxWalletIndex ∧
      (3000 : ℚ) ≤ inputsBalance specInputs) ∧
    (∃ tx, (buildTransaction specDeriv specPrivKey specInputs "addrC" 3000 0 1).1
        = .ok tx ∧
      (calculateFee specSer specDeriv specPrivKey specInputs "addrC" 3000 1).1
        = .ok ((⌈roundDouble ((specSer tx : ℚ) / 2 * satoshisPerByte)⌉ : ℤ) : ℚ) ∧
      (∀ b : Nat, specSer tx = 2 * b → (b : ℚ) ≤ 2 ^ 49 →
        (calculateFee specSer specDeriv specPrivKey specInputs "addrC" 3000 1).1
          = .ok ((⌈roundDouble ((b : ℚ) * satoshisPerByte)⌉ : ℤ) : ℚ) ∧
        ⌈(b : ℚ) * (11 / 10)⌉ = ((11 * b + 9) / 10 : Nat) ∧
        ⌈(b : ℚ) * (11 / 10)⌉ ≤ ⌈roundDouble ((b : ℚ) * satoshisPerByte)⌉ ∧
        ⌈roundDouble ((b : ℚ) * satoshisPerByte)⌉ ≤ ⌈(b : ℚ) * (11 / 10)⌉ + 1)) := by
  have hT : (3000 : ℚ) ≤ inputsBalance specInputs := by rw [specBalance]
  exact ⟨⟨le_refl 1, by decide, hT⟩,
    calculateFee_spec specSer specDeriv specPrivKey specInputs "addrC" 3000 1
      (le_refl 1) (by decide) hT⟩

end Topay
